import Mathlib

/-!
Verification development for the tobio video-overlay frontend.

The definitions below are shallow embeddings of the functions in
`VideoPlayer` (the render/drag logic) and `EventViewer` (the timeline
aggregator).  JavaScript numbers are modelled as rationals; where the
source can produce `NaN` or `Infinity` (division by a zero-sized
overlay rectangle), we use an explicit `JSNum` type that mirrors the
IEEE special values relevant to the operations that actually occur
(`x / w`, `Math.min(1, v)`, `Math.max(0, v)`, multiplication by a
nonnegative dimension, and `< 2` comparison).
-/

namespace Tobio

/-- Model of a JavaScript number as consumed by the drag handler: either a
finite value (a rational) or one of the special values `NaN`, `Infinity`,
`-Infinity` that the handler can produce by dividing by a zero dimension. -/
inductive JSNum where
  | nan : JSNum
  | inf : JSNum
  | ninf : JSNum
  | num : ℚ → JSNum
deriving DecidableEq

instance : Inhabited JSNum := ⟨JSNum.nan⟩

/-- JavaScript division `a / b` for finite operands: finite quotient when
`b ≠ 0`; `0 / 0 = NaN`; otherwise a signed infinity. -/
def jsDiv (a b : ℚ) : JSNum :=
  if b = 0 then
    if a = 0 then JSNum.nan
    else if a > 0 then JSNum.inf
    else JSNum.ninf
  else JSNum.num (a / b)

/-- JavaScript `Math.min(1, v)`: `NaN` propagates; `Infinity` caps at 1. -/
def jsMin1 : JSNum → JSNum
  | JSNum.nan => JSNum.nan
  | JSNum.inf => JSNum.num 1
  | JSNum.ninf => JSNum.ninf
  | JSNum.num q => JSNum.num (min 1 q)

/-- JavaScript `Math.max(0, v)`: `NaN` propagates; `-Infinity` floors at 0. -/
def jsMax0 : JSNum → JSNum
  | JSNum.nan => JSNum.nan
  | JSNum.inf => JSNum.inf
  | JSNum.ninf => JSNum.num 0
  | JSNum.num q => JSNum.num (max 0 q)

/-- JavaScript multiplication `v * w` of a possibly-special value by a finite
factor `w`. -/
def jsMul (v : JSNum) (w : ℚ) : JSNum :=
  match v with
  | JSNum.nan => JSNum.nan
  | JSNum.inf => if w = 0 then JSNum.nan else if w > 0 then JSNum.inf else JSNum.ninf
  | JSNum.ninf => if w = 0 then JSNum.nan else if w > 0 then JSNum.ninf else JSNum.inf
  | JSNum.num q => JSNum.num (q * w)

/-- JavaScript comparison `v < c` against a finite constant: false for `NaN`. -/
def jsLt (v : JSNum) (c : ℚ) : Bool :=
  match v with
  | JSNum.nan => false
  | JSNum.inf => false
  | JSNum.ninf => true
  | JSNum.num q => decide (q < c)

/-- Bounding box of the overlay element, as returned by
`getBoundingClientRect()`. -/
structure Rect where
  left : ℚ
  top : ℚ
  width : ℚ
  height : ℚ
deriving DecidableEq

/-- One pointer-move step of the calibration-handle drag handler
`handleGlobalMove` in `VideoPlayer`: converts the pointer position to
overlay-relative coordinates, reads the normalized-vs-pixel heuristic from
the current first corner (`avgCourtCorners[0][0] < 2`), clamps the
normalized position to `[0,1]` per axis, scales by the video dimensions when
the array is in pixel representation, and replaces index `draggingIdx` of
the corners array.  The source indexes `corners[0]`, which presupposes a
nonempty array (the handles only exist when the array has length 4); on the
empty list this model returns the list unchanged. -/
def handleGlobalMove (corners : List (JSNum × JSNum)) (draggingIdx : ℕ)
    (metaWidth metaHeight : ℚ) (rect : Rect) (clientX clientY : ℚ) :
    List (JSNum × JSNum) :=
  let x := clientX - rect.left
  let y := clientY - rect.top
  let isNormalized := jsLt corners.headI.1 2
  let newX0 := jsMax0 (jsMin1 (jsDiv x rect.width))
  let newY0 := jsMax0 (jsMin1 (jsDiv y rect.height))
  let newX := if isNormalized then newX0 else jsMul newX0 metaWidth
  let newY := if isNormalized then newY0 else jsMul newY0 metaHeight
  corners.set draggingIdx (newX, newY)

/-- Clamp of a rational to the unit interval, the effect of
`Math.max(0, Math.min(1, v))` on a finite value. -/
def clamp01 (q : ℚ) : ℚ := max 0 (min 1 q)

/-- Linear interpolation helper `lerp` of `VideoPlayer`:
`start + (end - start) * t`, with no clamping of `t`. -/
def lerp (start stop t : ℚ) : ℚ := start + (stop - start) * t

/-- Array access `ball3dPositions[i]` for an integer index: a negative or
out-of-range index yields `undefined`, and a stored `null` entry yields
`null`; both are collapsed to `none` (the code only ever tests them for
truthiness). -/
def rawEntry (ps : List (Option (List ℚ))) (i : ℤ) : Option (List ℚ) :=
  if 0 ≤ i then (ps.get? i.toNat).join else none

/-- Validity test applied by `draw` to a 3D sample:
`pos && pos.length >= 3` (the additional `pos[0] !== null` test is
vacuous on numeric entries). -/
def validSample : Option (List ℚ) → Bool
  | some l => decide (3 ≤ l.length)
  | none => false

/-- The net-view 3D ball computation of `draw` in `VideoPlayer` at exact
fractional frame `f`: with `i = floor(f)` and `alpha = f - i`,
`posCurrent = ball3dPositions[i]`,
`posNext = i + 1 < length ? ball3dPositions[i+1] : posCurrent`; if
`posCurrent` is valid the result is the componentwise `lerp` towards
`posNext` when `posNext` is also valid, else `posCurrent` itself; if
`posCurrent` is invalid nothing is rendered (`none`: the marker and the
label are given opacity 0). -/
def ball3dInterp (ps : List (Option (List ℚ))) (f : ℚ) : Option (ℚ × ℚ × ℚ) :=
  let i : ℤ := ⌊f⌋
  let alpha : ℚ := f - (i : ℚ)
  let posCurrent := rawEntry ps i
  let posNext := if i + 1 < (ps.length : ℤ) then rawEntry ps (i + 1) else posCurrent
  match posCurrent with
  | some (x :: y :: z :: _) =>
    match posNext with
    | some (x2 :: y2 :: z2 :: _) =>
      some (lerp x x2 alpha, lerp y y2 alpha, lerp z z2 alpha)
    | _ => some (x, y, z)
  | _ => none

/-- An action interval `ActionEvent` as delivered to `VideoPlayer`.  Frame
numbers are integers. -/
structure ActionEvent where
  action : String
  start_frame : ℤ
  end_frame : ℤ
deriving DecidableEq

/-- Integer frames visited by `for (let f = start; f <= end; f++)`:
all integers in `[s, e]`, empty when `e < s`. -/
def frameRange (s e : ℤ) : List ℤ :=
  (List.range (e + 1 - s).toNat).map (fun k : ℕ => s + (k : ℤ))

/-- Insertion sequence of `actionFrameMap` in `VideoPlayer`: for each event
in delivery order, one `map.set(f, event)` per frame of its interval.  The
`Map` is modelled as the list of `set` operations in order. -/
def actionEntries (events : List ActionEvent) : List (ℤ × ActionEvent) :=
  events.flatMap (fun ev =>
    (frameRange ev.start_frame ev.end_frame).map (fun f => (f, ev)))

/-- JavaScript `Map.get` over the recorded `set` operations: the value of
the chronologically last `set` for the key, or `undefined` (`none`). -/
def mapGet (m : List (ℤ × ActionEvent)) (k : ℤ) : Option ActionEvent :=
  match m with
  | [] => none
  | (k2, v) :: rest =>
    match mapGet rest k with
    | some v2 => some v2
    | none => if k2 = k then some v else none

/-- Frame lookup `actionFrameMap.get(frame)` used by `draw`. -/
def actionFrameMapGet (events : List ActionEvent) (frame : ℤ) : Option ActionEvent :=
  mapGet (actionEntries events) frame

/-- Helper `drawCourtPolygon` of `VideoPlayer`: draws nothing
(returns `none`) unless the corner array has length exactly 4; otherwise
strokes the closed polygon through the corners scaled to the canvas. -/
def drawCourtPolygon (corners : List (ℚ × ℚ)) (scaleX scaleY : ℚ) :
    Option (List (ℚ × ℚ)) :=
  if corners.length ≠ 4 then none
  else some (corners.map (fun c => (c.1 * scaleX, c.2 * scaleY)))

/-- The court-polygon step of `draw`: only when court tracking is on and
`avgCourtCorners?.length === 4`, convert normalized corners (first x `< 2`)
to pixel coordinates and invoke `drawCourtPolygon`.  `none` means no
polygon is drawn this frame. -/
def drawCourtStep (showCourtTracking : Bool) (corners : List (ℚ × ℚ))
    (metaWidth metaHeight scaleX scaleY : ℚ) : Option (List (ℚ × ℚ)) :=
  if showCourtTracking ∧ corners.length = 4 then
    let isNormalized := decide (corners.headI.1 < 2)
    let drawCorners :=
      if isNormalized then corners.map (fun c => (c.1 * metaWidth, c.2 * metaHeight))
      else corners
    drawCourtPolygon drawCorners scaleX scaleY
  else none

/-- The calibration handles rendered by `VideoPlayer`: one DOM handle per
corner, at the normalized position of the corner, only while the court lines are
unconfirmed and `avgCourtCorners?.length === 4`; otherwise no handles. -/
def renderedHandles (courtLinesConfirmed : Bool) (corners : List (ℚ × ℚ))
    (metaWidth metaHeight : ℚ) : List (ℚ × ℚ) :=
  if ¬courtLinesConfirmed ∧ corners.length = 4 then
    let isNormalized := decide (corners.headI.1 < 2)
    corners.map (fun c =>
      if isNormalized then c else (c.1 / metaWidth, c.2 / metaHeight))
  else []

/-- A `VolleyballEvent` as consumed by `EventViewer`.  Optional numeric
fields are `Option ℚ` (`none` = the field is absent / `undefined`). -/
structure VolleyballEvent where
  action : String
  start_frame : ℤ
  end_frame : ℤ
  player_id : Option ℤ := none
  ball_height_m : Option ℚ := none
  block_height_m : Option ℚ := none
  quality : Option ℕ := none
  set_position : Option ℚ := none
deriving DecidableEq

/-- A `ScorePoint`: `team` is `0` or `1` in the source type; the code only
tests `team === 0`. -/
structure ScorePoint where
  team : ℕ
  time : ℚ
deriving DecidableEq

/-- JavaScript truthiness of an optional numeric field: `undefined` and `0`
are falsy. -/
def truthy : Option ℚ → Bool
  | none => false
  | some v => decide (v ≠ 0)

/-- The secondary metric string `extraInfoText` of an event card, with the
formatted text abstracted to a tagged value: `heightM v` stands for the
meter-formatted height text, `setPositionM v` for the X-position text, and
`durationSec v` for the seconds-formatted duration text. -/
inductive ExtraInfo where
  | durationSec : ℚ → ExtraInfo
  | heightM : ℚ → ExtraInfo
  | setPositionM : ℚ → ExtraInfo
deriving DecidableEq

/-- Effective frame rate `(fps || 30)`: a zero (or absent, modelled as 0)
`fps` falls back to 30. -/
def fpsOr30 (fps : ℚ) : ℚ := if fps = 0 then 30 else fps

/-- Duration in seconds `(end_frame - start_frame) / (fps || 30)` of an
event card. -/
def eventDurationSec (e : VolleyballEvent) (fps : ℚ) : ℚ :=
  ((e.end_frame : ℚ) - (e.start_frame : ℚ)) / fpsOr30 fps

/-- The `extraInfoText` selection chain of `timelineItems` in
`EventViewer`: defaults to the duration, then the `if / else if` chain
keyed on the action and the truthiness of the optional metric fields. -/
def eventExtraInfo (e : VolleyballEvent) (fps : ℚ) : ExtraInfo :=
  if e.action = "spike" ∧ truthy e.ball_height_m then
    ExtraInfo.heightM (e.ball_height_m.getD 0)
  else if e.action = "block" ∧ truthy e.block_height_m then
    ExtraInfo.heightM (e.block_height_m.getD 0)
  else if e.action = "set" ∧ truthy e.ball_height_m then
    ExtraInfo.heightM (e.ball_height_m.getD 0)
  else if e.action = "set" ∧ truthy e.set_position then
    ExtraInfo.setPositionM (e.set_position.getD 0)
  else
    ExtraInfo.durationSec (eventDurationSec e fps)

/-- The fields of an event card relevant to the timeline: the source also
carries formatted strings (player label, details) derived from the same
data. -/
structure EventCardData where
  index : ℕ
  frameId : ℤ
  endFrameId : ℤ
  timestamp : ℚ
  extraInfo : ExtraInfo
deriving DecidableEq

/-- A timeline item: an event card or a running-score point divider
(`point index timestamp scoreA scoreB`). -/
inductive TimelineItem where
  | event : EventCardData → TimelineItem
  | point : ℕ → ℚ → ℕ → ℕ → TimelineItem
deriving DecidableEq

/-- Timestamp of a timeline item, the sort key of the merge. -/
def TimelineItem.timestamp : TimelineItem → ℚ
  | TimelineItem.event c => c.timestamp
  | TimelineItem.point _ t _ _ => t

/-- Whether a timeline item is a point divider. -/
def TimelineItem.isPoint : TimelineItem → Bool
  | TimelineItem.event _ => false
  | TimelineItem.point _ _ _ _ => true

/-- The comparator `(a, b) => a.timestamp - b.timestamp` of the merge,
as the ordering it induces. -/
def byTimestamp (a b : TimelineItem) : Prop :=
  TimelineItem.timestamp a ≤ TimelineItem.timestamp b

instance : DecidableRel byTimestamp := fun a b =>
  inferInstanceAs (Decidable (TimelineItem.timestamp a ≤ TimelineItem.timestamp b))

/-- One event card of `timelineItems`: timestamp `start_frame / (fps||30)`
plus the secondary metric. -/
def mkEventCard (index : ℕ) (e : VolleyballEvent) (fps : ℚ) : EventCardData :=
  ⟨index, e.start_frame, e.end_frame, (e.start_frame : ℚ) / fpsOr30 fps,
    eventExtraInfo e fps⟩

/-- The point-divider mapping of `timelineItems`: walks the `ScorePoint`
stream in arrival order carrying the mutable `scoreA` / `scoreB` counters
(`index` is the position in the stream, used for the synthetic id). -/
def mkPointItemsAux : List ScorePoint → ℕ → ℕ → ℕ → List TimelineItem
  | [], _, _, _ => []
  | p :: rest, a, b, index =>
    let a2 := if p.team = 0 then a + 1 else a
    let b2 := if p.team = 0 then b else b + 1
    TimelineItem.point index p.time a2 b2 :: mkPointItemsAux rest a2 b2 (index + 1)

/-- The `pointItems` list of `timelineItems`, starting from score 0 - 0. -/
def mkPointItems (points : List ScorePoint) : List TimelineItem :=
  mkPointItemsAux points 0 0 0

/-- The `eventItems` list of `timelineItems`: one card per delivered event,
in delivery order, carrying its index. -/
def eventItemsOf (rawEvents : List VolleyballEvent) (fps : ℚ) : List TimelineItem :=
  rawEvents.enum.map (fun ie => TimelineItem.event (mkEventCard ie.1 ie.2 fps))

/-- The merged timeline of `EventViewer`: event cards (in delivery order,
with their index) concatenated with the point dividers, then sorted
ascending by timestamp.  `Array.prototype.sort` is stable, which is modelled
by a stable insertion sort. -/
def timelineItems (rawEvents : List VolleyballEvent) (points : List ScorePoint)
    (fps : ℚ) : List TimelineItem :=
  List.insertionSort byTimestamp (eventItemsOf rawEvents fps ++ mkPointItems points)

/-- Number of points scored by team 0 in a score stream. -/
def countTeam0 (points : List ScorePoint) : ℕ :=
  points.countP (fun p => decide (p.team = 0))

/-- Number of points scored by a nonzero team tag (team 1 in well-formed
data) in a score stream. -/
def countTeam1 (points : List ScorePoint) : ℕ :=
  points.countP (fun p => decide (p.team ≠ 0))

/-- A concrete pixel-space corner array (all x-coordinates `≥ 2`). -/
def pixelCorners : List (JSNum × JSNum) :=
  [(JSNum.num 50, JSNum.num 50), (JSNum.num 90, JSNum.num 10),
   (JSNum.num 90, JSNum.num 90), (JSNum.num 10, JSNum.num 90)]

/-- A 100 by 100 overlay rectangle at the origin. -/
def fullRect : Rect := ⟨0, 0, 100, 100⟩

/-- An overlay rectangle whose width has collapsed to 0. -/
def zeroWidthRect : Rect := ⟨0, 0, 0, 100⟩

theorem rawEntry_some_bounds {ps : List (Option (List ℚ))} {i : ℤ}
    {l : List ℚ} (h : rawEntry ps i = some l) : 0 ≤ i ∧ i < (ps.length : ℤ) := by
  unfold rawEntry at h
  by_cases h0 : 0 ≤ i
  · rw [if_pos h0] at h
    have h1 : ps.get? i.toNat = some (some l) := Option.join_eq_some.mp h
    have h2 := (List.get?_eq_some.mp h1).1
    omega
  · rw [if_neg h0] at h
    exact absurd h (by simp)

/-- Claim C1: for a fractional frame position `f` with valid samples at
`i = floor(f)` and `i + 1`, the net-view ball position is the componentwise
`a + (b - a) * t` with `t = f - i` (the point on the straight segment
between the two samples at parameter `t`); `lerp` performs no clamping of
`t`; and at `t = 0` (integer `f`) the interpolated value is exactly the
sample at `i`. -/
theorem interp_lerp_between_valid_samples
    (ps : List (Option (List ℚ))) (f : ℚ) (x y z : ℚ) (r1 : List ℚ)
    (x2 y2 z2 : ℚ) (r2 : List ℚ)
    (hc : rawEntry ps ⌊f⌋ = some (x :: y :: z :: r1))
    (hn : rawEntry ps (⌊f⌋ + 1) = some (x2 :: y2 :: z2 :: r2)) :
    (∀ a b t : ℚ, lerp a b t = a + (b - a) * t) ∧
    ball3dInterp ps f =
      some (x + (x2 - x) * (f - (⌊f⌋ : ℚ)),
            y + (y2 - y) * (f - (⌊f⌋ : ℚ)),
            z + (z2 - z) * (f - (⌊f⌋ : ℚ))) ∧
    (f = ((⌊f⌋ : ℤ) : ℚ) → ball3dInterp ps f = some (x, y, z)) := by
  have hlt : ⌊f⌋ + 1 < (ps.length : ℤ) := (rawEntry_some_bounds hn).2
  have hred : ball3dInterp ps f =
      some (lerp x x2 (f - (⌊f⌋ : ℚ)), lerp y y2 (f - (⌊f⌋ : ℚ)),
            lerp z z2 (f - (⌊f⌋ : ℚ))) := by
    simp only [ball3dInterp, if_pos hlt, hc, hn]
  refine ⟨fun a b t => rfl, ?_, ?_⟩
  · rw [hred]; simp [lerp]
  · intro h0
    rw [hred]
    have ht : f - ((⌊f⌋ : ℤ) : ℚ) = 0 := by rw [← h0]; ring
    simp [lerp, ht]

/-- Witness for C1 at `ps = [some [1,2,3], some [3,6,9]]`, `f = 1/2`:
the interpolated position is the midpoint `(2, 4, 6)`. -/
theorem interp_lerp_between_valid_samples_witness :
    ball3dInterp [some [1, 2, 3], some [3, 6, 9]] (1 / 2) = some (2, 4, 6) := by
  have hf : ⌊(1 / 2 : ℚ)⌋ = 0 := by norm_num
  have h := interp_lerp_between_valid_samples
    [some [1, 2, 3], some [3, 6, 9]] (1 / 2) 1 2 3 [] 3 6 9 []
    (by rw [hf]; decide) (by rw [hf]; decide)
  rw [h.2.1, hf]
  norm_num

/-- Claim C3: if the sample at `i = floor(f)` is null or missing, nothing is
rendered in the net view this frame (result `none`, marker and label
hidden); if the sample at `i` is valid but the sample at `i + 1` is out of
range or invalid, the rendered value is exactly the sample at `i`. -/
theorem interp_gap_handling (ps : List (Option (List ℚ))) (f : ℚ) :
    (validSample (rawEntry ps ⌊f⌋) = false → ball3dInterp ps f = none) ∧
    (∀ x y z r1, rawEntry ps ⌊f⌋ = some (x :: y :: z :: r1) →
      (ps.length : ℤ) ≤ ⌊f⌋ + 1 ∨ validSample (rawEntry ps (⌊f⌋ + 1)) = false →
      ball3dInterp ps f = some (x, y, z)) := by
  constructor
  · intro hinv
    rcases hcur : rawEntry ps ⌊f⌋ with _ | l
    · simp only [ball3dInterp, hcur]
    · rw [hcur] at hinv
      rcases l with _ | ⟨a, _ | ⟨b, _ | ⟨c, rest⟩⟩⟩
      · simp only [ball3dInterp, hcur]
      · simp only [ball3dInterp, hcur]
      · simp only [ball3dInterp, hcur]
      · simp [validSample] at hinv
  · intro x y z r1 hc hdis
    by_cases hlt : ⌊f⌋ + 1 < (ps.length : ℤ)
    · have hnv : validSample (rawEntry ps (⌊f⌋ + 1)) = false := by
        rcases hdis with hle | hnv
        · omega
        · exact hnv
      rcases hnext : rawEntry ps (⌊f⌋ + 1) with _ | l
      · simp only [ball3dInterp, if_pos hlt, hc, hnext]
      · rw [hnext] at hnv
        rcases l with _ | ⟨a, _ | ⟨b, _ | ⟨c, rest⟩⟩⟩
        · simp only [ball3dInterp, if_pos hlt, hc, hnext]
        · simp only [ball3dInterp, if_pos hlt, hc, hnext]
        · simp only [ball3dInterp, if_pos hlt, hc, hnext]
        · simp [validSample] at hnv
    · have hred : ball3dInterp ps f =
          some (lerp x x (f - (⌊f⌋ : ℚ)), lerp y y (f - (⌊f⌋ : ℚ)),
                lerp z z (f - (⌊f⌋ : ℚ))) := by
        simp only [ball3dInterp, if_neg hlt, hc]
      rw [hred]
      simp [lerp]

/-- Witness for C3: with `ps = [none, some [1,2,3], some [5]]`, the frame at
`f = 1/2` (current sample null) renders nothing, and the frame at `f = 3/2`
(current valid, next invalid) holds the current sample `(1, 2, 3)`. -/
theorem interp_gap_handling_witness :
    ball3dInterp [none, some [1, 2, 3], some [5]] (1 / 2) = none ∧
    ball3dInterp [none, some [1, 2, 3], some [5]] (3 / 2) = some (1, 2, 3) := by
  have hf1 : ⌊(1 / 2 : ℚ)⌋ = 0 := by norm_num
  have hf2 : ⌊(3 / 2 : ℚ)⌋ = 1 := by norm_num
  constructor
  · exact (interp_gap_handling [none, some [1, 2, 3], some [5]] (1 / 2)).1
      (by rw [hf1]; decide)
  · exact (interp_gap_handling [none, some [1, 2, 3], some [5]] (3 / 2)).2
      1 2 3 [] (by rw [hf2]; decide) (Or.inr (by rw [hf2]; decide))

theorem clamp01_nonneg (q : ℚ) : 0 ≤ clamp01 q := le_max_left 0 (min 1 q)

theorem clamp01_le_one (q : ℚ) : clamp01 q ≤ 1 :=
  max_le zero_le_one (min_le_left 1 q)

/-- With a positive overlay rectangle, the entry written by one pointer-move
is the clamped normalized pointer position, scaled by the video dimensions
exactly when the current corner array is in pixel representation. -/
theorem handleGlobalMove_written_entry (corners : List (JSNum × JSNum))
    (i : ℕ) (metaW metaH : ℚ) (rect : Rect) (cx cy : ℚ)
    (hi : i < corners.length) (hw : 0 < rect.width) (hh : 0 < rect.height) :
    (handleGlobalMove corners i metaW metaH rect cx cy)[i]? =
      some (if jsLt corners.headI.1 2 then
              (JSNum.num (clamp01 ((cx - rect.left) / rect.width)),
               JSNum.num (clamp01 ((cy - rect.top) / rect.height)))
            else
              (JSNum.num (clamp01 ((cx - rect.left) / rect.width) * metaW),
               JSNum.num (clamp01 ((cy - rect.top) / rect.height) * metaH))) := by
  have hwne : rect.width ≠ 0 := ne_of_gt hw
  have hhne : rect.height ≠ 0 := ne_of_gt hh
  have hdx : jsDiv (cx - rect.left) rect.width =
      JSNum.num ((cx - rect.left) / rect.width) := by simp [jsDiv, hwne]
  have hdy : jsDiv (cy - rect.top) rect.height =
      JSNum.num ((cy - rect.top) / rect.height) := by simp [jsDiv, hhne]
  unfold handleGlobalMove
  simp only [hdx, hdy]
  rw [List.getElem?_set_eq_of_lt _ hi]
  by_cases hnorm : jsLt corners.headI.1 2
  · simp [hnorm, jsMin1, jsMax0, clamp01]
  · simp [hnorm, jsMin1, jsMax0, jsMul, clamp01]

/-- Claim C2: a pointer-move while dragging handle `i` replaces only index
`i` of the corners array with the converted pointer position (clamped to
`[0,1]` per axis in normalized space, then scaled to pixels when the array
is in pixel representation); the other three entries are returned
unchanged. -/
theorem drag_updates_only_dragged_corner (corners : List (JSNum × JSNum))
    (i : ℕ) (metaW metaH : ℚ) (rect : Rect) (cx cy : ℚ)
    (hlen : corners.length = 4) (hi : i < 4)
    (hw : 0 < rect.width) (hh : 0 < rect.height) :
    (handleGlobalMove corners i metaW metaH rect cx cy)[i]? =
      some (if jsLt corners.headI.1 2 then
              (JSNum.num (clamp01 ((cx - rect.left) / rect.width)),
               JSNum.num (clamp01 ((cy - rect.top) / rect.height)))
            else
              (JSNum.num (clamp01 ((cx - rect.left) / rect.width) * metaW),
               JSNum.num (clamp01 ((cy - rect.top) / rect.height) * metaH))) ∧
    ∀ j, j ≠ i →
      (handleGlobalMove corners i metaW metaH rect cx cy)[j]? = corners[j]? := by
  constructor
  · exact handleGlobalMove_written_entry corners i metaW metaH rect cx cy
      (by omega) hw hh
  · intro j hj
    unfold handleGlobalMove
    exact List.getElem?_set_ne (fun h => hj h.symm)

/-- Witness for C2: dragging handle 2 of a normalized corner array moves
only that corner, to the clamped pointer position. -/
theorem drag_updates_only_dragged_corner_witness :
    (handleGlobalMove
        [(JSNum.num 0, JSNum.num 0), (JSNum.num 1, JSNum.num 0),
         (JSNum.num 1, JSNum.num 1), (JSNum.num 0, JSNum.num 1)]
        2 1920 1080 fullRect 250 50)[2]? =
      some (JSNum.num 1, JSNum.num (1 / 2)) ∧
    (handleGlobalMove
        [(JSNum.num 0, JSNum.num 0), (JSNum.num 1, JSNum.num 0),
         (JSNum.num 1, JSNum.num 1), (JSNum.num 0, JSNum.num 1)]
        2 1920 1080 fullRect 250 50)[0]? = some (JSNum.num 0, JSNum.num 0) := by
  have h := drag_updates_only_dragged_corner
    [(JSNum.num 0, JSNum.num 0), (JSNum.num 1, JSNum.num 0),
     (JSNum.num 1, JSNum.num 1), (JSNum.num 0, JSNum.num 1)]
    2 1920 1080 fullRect 250 50 (by decide) (by decide) (by decide) (by decide)
  constructor
  · rw [h.1]
    norm_num [jsLt, fullRect, clamp01]
  · rw [h.2 0 (by decide)]
    decide

/-- Claim C10: when the corner array is in pixel representation (first x at
least 2) and the overlay has positive dimensions, the corner written by a
drag pointer-move lies within `[0, metadata.width] times
[0, metadata.height]`. -/
theorem drag_pixel_corner_in_video_bounds (corners : List (JSNum × JSNum))
    (i : ℕ) (metaW metaH : ℚ) (rect : Rect) (cx cy : ℚ) (x0 : ℚ)
    (hlen : corners.length = 4) (hi : i < 4)
    (hhead : corners.headI.1 = JSNum.num x0) (hx0 : 2 ≤ x0)
    (hw : 0 < rect.width) (hh : 0 < rect.height)
    (hmw : 0 ≤ metaW) (hmh : 0 ≤ metaH) :
    ∃ qx qy,
      (handleGlobalMove corners i metaW metaH rect cx cy)[i]? =
        some (JSNum.num qx, JSNum.num qy) ∧
      0 ≤ qx ∧ qx ≤ metaW ∧ 0 ≤ qy ∧ qy ≤ metaH := by
  have hnorm : jsLt corners.headI.1 2 = false := by
    rw [hhead]
    simp [jsLt]
    linarith
  have h := handleGlobalMove_written_entry corners i metaW metaH rect cx cy
    (by omega) hw hh
  rw [hnorm] at h
  simp only [Bool.false_eq_true, if_false] at h
  refine ⟨clamp01 ((cx - rect.left) / rect.width) * metaW,
          clamp01 ((cy - rect.top) / rect.height) * metaH, h, ?_, ?_, ?_, ?_⟩
  · exact mul_nonneg (clamp01_nonneg _) hmw
  · calc clamp01 ((cx - rect.left) / rect.width) * metaW
        ≤ 1 * metaW := mul_le_mul_of_nonneg_right (clamp01_le_one _) hmw
      _ = metaW := one_mul metaW
  · exact mul_nonneg (clamp01_nonneg _) hmh
  · calc clamp01 ((cy - rect.top) / rect.height) * metaH
        ≤ 1 * metaH := mul_le_mul_of_nonneg_right (clamp01_le_one _) hmh
      _ = metaH := one_mul metaH

/-- Witness for C10: dragging corner 0 of a pixel-space array far off the
overlay to the upper left still writes a corner inside the video bounds. -/
theorem drag_pixel_corner_in_video_bounds_witness :
    ∃ qx qy,
      (handleGlobalMove pixelCorners 0 1920 1080 fullRect (-500) (-500))[0]? =
        some (JSNum.num qx, JSNum.num qy) ∧
      0 ≤ qx ∧ qx ≤ 1920 ∧ 0 ≤ qy ∧ qy ≤ 1080 :=
  drag_pixel_corner_in_video_bounds pixelCorners 0 1920 1080 fullRect
    (-500) (-500) 50 (by decide) (by decide) (by decide) (by norm_num)
    (by decide) (by decide) (by norm_num) (by norm_num)

/-- Claim C5, failing evaluation: the normalized-vs-pixel heuristic is
re-evaluated from the current corner array on every pointer-move, not
captured once at drag start.  Starting from a pixel-space array (first x =
50), the first move drags handle 0 to the left edge, making the first x
equal 0; the second move of the same drag then classifies the array as
normalized and writes the unscaled clamped position `(1/2, 1/2)` instead of
the pixel position `(50, 50)` that the drag-start representation would have
produced. -/
theorem drag_heuristic_recomputed_per_move :
    jsLt pixelCorners.headI.1 2 = false ∧
    jsLt (handleGlobalMove pixelCorners 0 100 100 fullRect 0 50).headI.1 2 = true ∧
    (handleGlobalMove (handleGlobalMove pixelCorners 0 100 100 fullRect 0 50)
        0 100 100 fullRect 50 50)[0]? =
      some (JSNum.num (1 / 2), JSNum.num (1 / 2)) := by
  refine ⟨by decide, ?_, ?_⟩
  · norm_num [handleGlobalMove, pixelCorners, fullRect, jsDiv, jsMin1, jsMax0,
      jsMul, jsLt, List.set, List.headI]
  · norm_num [handleGlobalMove, pixelCorners, fullRect, jsDiv, jsMin1, jsMax0,
      jsMul, jsLt, List.set, List.headI]

/-- Claim C6, failing evaluation: with a zero-width overlay rectangle and
the pointer on its left edge, the drag handler computes `0 / 0 = NaN`,
which survives the `Math.max(0, Math.min(1, v))` clamp and is written into
the shared corner array. -/
theorem drag_zero_width_writes_nan :
    (handleGlobalMove pixelCorners 0 100 100 zeroWidthRect 0 50)[0]? =
      some (JSNum.nan, JSNum.num 50) := by
  norm_num [handleGlobalMove, pixelCorners, zeroWidthRect, jsDiv, jsMin1,
    jsMax0, jsMul, jsLt, List.set, List.headI]

/-- Claim C7: whenever the corner array has length different from 4, the
renderer draws no court polygon and renders no calibration handles (both
models are total functions, so no exception is thrown), and any polygon
that is drawn has exactly 4 vertices. -/
theorem malformed_corners_suppress_polygon_and_handles
    (showCourtTracking courtLinesConfirmed : Bool) (corners : List (ℚ × ℚ))
    (metaW metaH scaleX scaleY : ℚ) :
    (corners.length ≠ 4 →
      drawCourtStep showCourtTracking corners metaW metaH scaleX scaleY = none ∧
      renderedHandles courtLinesConfirmed corners metaW metaH = []) ∧
    (∀ poly,
      drawCourtStep showCourtTracking corners metaW metaH scaleX scaleY = some poly →
      poly.length = 4) := by
  constructor
  · intro hne
    constructor
    · simp [drawCourtStep, hne]
    · simp [renderedHandles, hne]
  · intro poly hpoly
    unfold drawCourtStep at hpoly
    by_cases hcond : showCourtTracking = true ∧ corners.length = 4
    · rw [if_pos hcond] at hpoly
      unfold drawCourtPolygon at hpoly
      by_cases hnorm : decide (corners.headI.1 < 2) = true
      · simp only [hnorm, if_true] at hpoly
        rw [if_neg (by simp [hcond.2])] at hpoly
        have := Option.some.inj hpoly
        simp [← this, hcond.2]
      · simp only [hnorm, Bool.false_eq_true, if_false] at hpoly
        rw [if_neg (by simp [hcond.2])] at hpoly
        have := Option.some.inj hpoly
        simp [← this, hcond.2]
    · rw [if_neg hcond] at hpoly
      exact absurd hpoly (by simp)

/-- Witness for C7: a 3-corner array yields no polygon and no handles. -/
theorem malformed_corners_suppress_polygon_and_handles_witness :
    drawCourtStep true [(0, 0), (1, 0), (1, 1)] 1920 1080 1 1 = none ∧
    renderedHandles false [(0, 0), (1, 0), (1, 1)] 1920 1080 = [] :=
  (malformed_corners_suppress_polygon_and_handles true false
    [(0, 0), (1, 0), (1, 1)] 1920 1080 1 1).1 (by decide)

theorem mem_frameRange {s e x : ℤ} : x ∈ frameRange s e ↔ s ≤ x ∧ x ≤ e := by
  unfold frameRange
  rw [List.mem_map]
  constructor
  · rintro ⟨k, hk, rfl⟩
    rw [List.mem_range] at hk
    omega
  · intro hx
    refine ⟨(x - s).toNat, ?_, ?_⟩
    · rw [List.mem_range]
      omega
    · omega

theorem mem_actionEntries {events : List ActionEvent} {f : ℤ} {ev : ActionEvent} :
    (f, ev) ∈ actionEntries events ↔
      ev ∈ events ∧ ev.start_frame ≤ f ∧ f ≤ ev.end_frame := by
  unfold actionEntries
  simp only [List.mem_flatMap, List.mem_map]
  constructor
  · rintro ⟨e, he, g, hg, heq⟩
    obtain ⟨rfl, rfl⟩ : g = f ∧ e = ev := by
      constructor
      · exact congrArg Prod.fst heq
      · exact congrArg Prod.snd heq
    exact ⟨he, mem_frameRange.mp hg⟩
  · rintro ⟨he, hs, hend⟩
    exact ⟨ev, he, f, mem_frameRange.mpr ⟨hs, hend⟩, rfl⟩

theorem mapGet_some {m : List (ℤ × ActionEvent)} {k : ℤ} {ev : ActionEvent}
    (h : mapGet m k = some ev) : (k, ev) ∈ m := by
  induction m with
  | nil => exact absurd h (by simp [mapGet])
  | cons p rest ih =>
    obtain ⟨k2, v⟩ := p
    rw [mapGet] at h
    rcases hr : mapGet rest k with _ | v2
    · rw [hr] at h
      by_cases hk : k2 = k
      · rw [if_pos hk] at h
        have hv : v = ev := Option.some.inj h
        rw [← hv, ← hk]
        exact List.mem_cons_self (k2, v) rest
      · rw [if_neg hk] at h
        exact absurd h (by simp)
    · rw [hr] at h
      have hv : v2 = ev := Option.some.inj h
      have hrest : mapGet rest k = some ev := by rw [hr, hv]
      exact List.mem_cons_of_mem _ (ih hrest)

theorem mapGet_isSome {m : List (ℤ × ActionEvent)} {k : ℤ}
    (h : ∃ ev, (k, ev) ∈ m) : (mapGet m k).isSome = true := by
  obtain ⟨ev, hmem⟩ := h
  induction m with
  | nil => exact absurd hmem (by simp)
  | cons p rest ih =>
    obtain ⟨k2, v⟩ := p
    rw [mapGet]
    rcases hr : mapGet rest k with _ | v2
    · rcases List.mem_cons.mp hmem with hhead | htail
      · have hk : k2 = k := (congrArg Prod.fst hhead).symm
        rw [if_pos hk]
        rfl
      · have := ih htail
        rw [hr] at this
        exact absurd this (by simp)
    · rfl

/-- Claim C4: the frame-indexed action lookup is sound (any event found at
frame `f` is one of the delivered events and its interval contains `f`) and
complete (some event is found at `f` exactly when the interval of some
delivered event contains `f`); for a single delivered event the lookup finds that
event at exactly the frames of its closed interval. -/
theorem action_lookup_interval (events : List ActionEvent) (f : ℤ) :
    (∀ ev, actionFrameMapGet events f = some ev →
      ev ∈ events ∧ ev.start_frame ≤ f ∧ f ≤ ev.end_frame) ∧
    ((actionFrameMapGet events f).isSome = true ↔
      ∃ ev ∈ events, ev.start_frame ≤ f ∧ f ≤ ev.end_frame) ∧
    (∀ ev, events = [ev] →
      (actionFrameMapGet events f = some ev ↔
        ev.start_frame ≤ f ∧ f ≤ ev.end_frame)) := by
  refine ⟨?_, ⟨?_, ?_⟩, ?_⟩
  · intro ev h
    exact mem_actionEntries.mp (mapGet_some h)
  · intro hsome
    obtain ⟨ev, hev⟩ := Option.isSome_iff_exists.mp hsome
    have := mem_actionEntries.mp (mapGet_some hev)
    exact ⟨ev, this.1, this.2⟩
  · rintro ⟨ev, hmem, hs, he⟩
    exact mapGet_isSome ⟨ev, mem_actionEntries.mpr ⟨hmem, hs, he⟩⟩
  · rintro ev rfl
    constructor
    · intro h
      exact (mem_actionEntries.mp (mapGet_some h)).2
    · intro hcont
      have hsome : (actionFrameMapGet [ev] f).isSome = true :=
        mapGet_isSome ⟨ev, mem_actionEntries.mpr ⟨List.mem_singleton_self ev, hcont⟩⟩
      obtain ⟨ev2, hev2⟩ := Option.isSome_iff_exists.mp hsome
      have hin : ev2 ∈ [ev] := (mem_actionEntries.mp (mapGet_some hev2)).1
      rw [hev2]
      rw [List.mem_singleton.mp hin]

/-- Witness for C4: the single event with frames `[60, 90]` is found at
frames 60, 75 and 90, and not at 59 or 91. -/
theorem action_lookup_interval_witness :
    actionFrameMapGet [ActionEvent.mk "spike" 60 90] 60 =
      some (ActionEvent.mk "spike" 60 90) ∧
    actionFrameMapGet [ActionEvent.mk "spike" 60 90] 75 =
      some (ActionEvent.mk "spike" 60 90) ∧
    actionFrameMapGet [ActionEvent.mk "spike" 60 90] 90 =
      some (ActionEvent.mk "spike" 60 90) ∧
    actionFrameMapGet [ActionEvent.mk "spike" 60 90] 59 = none ∧
    actionFrameMapGet [ActionEvent.mk "spike" 60 90] 91 = none := by
  have h60 := (action_lookup_interval [ActionEvent.mk "spike" 60 90] 60).2.2
    (ActionEvent.mk "spike" 60 90) rfl
  have h75 := (action_lookup_interval [ActionEvent.mk "spike" 60 90] 75).2.2
    (ActionEvent.mk "spike" 60 90) rfl
  have h90 := (action_lookup_interval [ActionEvent.mk "spike" 60 90] 90).2.2
    (ActionEvent.mk "spike" 60 90) rfl
  have h59 := (action_lookup_interval [ActionEvent.mk "spike" 60 90] 59).2.1
  have h91 := (action_lookup_interval [ActionEvent.mk "spike" 60 90] 91).2.1
  refine ⟨h60.mpr (by decide), h75.mpr (by decide), h90.mpr (by decide), ?_, ?_⟩
  · rw [← Option.not_isSome_iff_eq_none, h59]
    rintro ⟨ev, hmem, hs, he⟩
    rw [List.mem_singleton.mp hmem] at hs
    exact absurd hs (by decide)
  · rw [← Option.not_isSome_iff_eq_none, h91]
    rintro ⟨ev, hmem, hs, he⟩
    rw [List.mem_singleton.mp hmem] at he
    exact absurd he (by decide)

/-- Claim C9, counterexample: a spike event whose ball height is present
but equal to 0 falls through to the duration metric, because the source
tests JavaScript truthiness of `event.ball_height_m` (0 is falsy), not
presence.  The claim as stated would require the height `0.00m` to be
shown. -/
theorem secondary_metric_zero_height_counterexample :
    eventExtraInfo (VolleyballEvent.mk "spike" 0 30 none (some 0) none none none) 30 =
      ExtraInfo.durationSec 1 ∧
    eventExtraInfo (VolleyballEvent.mk "spike" 0 30 none (some 0) none none none) 30 ≠
      ExtraInfo.heightM 0 := by
  have h : eventExtraInfo (VolleyballEvent.mk "spike" 0 30 none (some 0) none none none) 30 =
      ExtraInfo.durationSec 1 := by
    norm_num [eventExtraInfo, truthy, eventDurationSec, fpsOr30]
  refine ⟨h, ?_⟩
  rw [h]
  intro hcontra
  exact absurd hcontra (by simp)

/-- Claim C9 (amended): the secondary metric of an event card follows the
priority spike-height, block-height, set-height, set-position, duration,
where each optional metric is used only when present and nonzero (JS
truthiness); otherwise the metric is the duration
`(end_frame - start_frame) / fps`. -/
theorem secondary_metric_priority (e : VolleyballEvent) (fps : ℚ) :
    (∀ h, e.action = "spike" → e.ball_height_m = some h → h ≠ 0 →
      eventExtraInfo e fps = ExtraInfo.heightM h) ∧
    (∀ h, e.action = "block" → e.block_height_m = some h → h ≠ 0 →
      eventExtraInfo e fps = ExtraInfo.heightM h) ∧
    (∀ h, e.action = "set" → e.ball_height_m = some h → h ≠ 0 →
      eventExtraInfo e fps = ExtraInfo.heightM h) ∧
    (∀ p, e.action = "set" → truthy e.ball_height_m = false →
      e.set_position = some p → p ≠ 0 →
      eventExtraInfo e fps = ExtraInfo.setPositionM p) ∧
    (¬(e.action = "spike" ∧ truthy e.ball_height_m = true) →
     ¬(e.action = "block" ∧ truthy e.block_height_m = true) →
     ¬(e.action = "set" ∧ truthy e.ball_height_m = true) →
     ¬(e.action = "set" ∧ truthy e.set_position = true) →
      eventExtraInfo e fps = ExtraInfo.durationSec (eventDurationSec e fps)) := by
  refine ⟨?_, ?_, ?_, ?_, ?_⟩
  · intro h ha hb hne
    have ht : truthy e.ball_height_m = true := by simp [hb, truthy, hne]
    unfold eventExtraInfo
    rw [if_pos ⟨ha, ht⟩, hb]
    rfl
  · intro h ha hb hne
    have ht : truthy e.block_height_m = true := by simp [hb, truthy, hne]
    have h1 : ¬(e.action = "spike" ∧ truthy e.ball_height_m = true) := by
      rw [ha]
      rintro ⟨hcontra, _⟩
      exact absurd hcontra (by decide)
    unfold eventExtraInfo
    rw [if_neg h1, if_pos ⟨ha, ht⟩, hb]
    rfl
  · intro h ha hb hne
    have ht : truthy e.ball_height_m = true := by simp [hb, truthy, hne]
    have h1 : ¬(e.action = "spike" ∧ truthy e.ball_height_m = true) := by
      rw [ha]
      rintro ⟨hcontra, _⟩
      exact absurd hcontra (by decide)
    have h2 : ¬(e.action = "block" ∧ truthy e.block_height_m = true) := by
      rw [ha]
      rintro ⟨hcontra, _⟩
      exact absurd hcontra (by decide)
    unfold eventExtraInfo
    rw [if_neg h1, if_neg h2, if_pos ⟨ha, ht⟩, hb]
    rfl
  · intro p ha hbf hp hne
    have ht : truthy e.set_position = true := by simp [hp, truthy, hne]
    have h1 : ¬(e.action = "spike" ∧ truthy e.ball_height_m = true) := by
      rw [ha]
      rintro ⟨hcontra, _⟩
      exact absurd hcontra (by decide)
    have h2 : ¬(e.action = "block" ∧ truthy e.block_height_m = true) := by
      rw [ha]
      rintro ⟨hcontra, _⟩
      exact absurd hcontra (by decide)
    have h3 : ¬(e.action = "set" ∧ truthy e.ball_height_m = true) := by
      rintro ⟨_, hcontra⟩
      rw [hbf] at hcontra
      exact absurd hcontra (by decide)
    unfold eventExtraInfo
    rw [if_neg h1, if_neg h2, if_neg h3, if_pos ⟨ha, ht⟩, hp]
    rfl
  · intro h1 h2 h3 h4
    unfold eventExtraInfo
    rw [if_neg h1, if_neg h2, if_neg h3, if_neg h4]

/-- Witness for C9: a spike at nonzero height 3.2 m shows the height; a set
with no heights but a set position shows the position. -/
theorem secondary_metric_priority_witness :
    eventExtraInfo
      (VolleyballEvent.mk "spike" 0 30 none (some (16 / 5)) none none none) 30 =
      ExtraInfo.heightM (16 / 5) ∧
    eventExtraInfo
      (VolleyballEvent.mk "set" 0 30 none none none none (some 4)) 30 =
      ExtraInfo.setPositionM 4 := by
  constructor
  · exact (secondary_metric_priority
      (VolleyballEvent.mk "spike" 0 30 none (some (16 / 5)) none none none) 30).1
      (16 / 5) rfl rfl (by norm_num)
  · exact (secondary_metric_priority
      (VolleyballEvent.mk "set" 0 30 none none none none (some 4)) 30).2.2.2.1
      4 rfl (by decide) rfl (by norm_num)

theorem mkPointItemsAux_map_timestamp (pts : List ScorePoint) (a b i : ℕ) :
    (mkPointItemsAux pts a b i).map TimelineItem.timestamp =
      pts.map ScorePoint.time := by
  induction pts generalizing a b i with
  | nil => rfl
  | cons p rest ih => simp [mkPointItemsAux, TimelineItem.timestamp, ih]

theorem mkPointItemsAux_isPoint (pts : List ScorePoint) (a b i : ℕ) :
    ∀ x ∈ mkPointItemsAux pts a b i, TimelineItem.isPoint x = true := by
  induction pts generalizing a b i with
  | nil => intro x hx; exact absurd hx (by simp [mkPointItemsAux])
  | cons p rest ih =>
    intro x hx
    rcases List.mem_cons.mp hx with hx | hx
    · rw [hx]; rfl
    · exact ih _ _ _ x hx

theorem mkPointItemsAux_get? (pts : List ScorePoint) (a b i k : ℕ) :
    (mkPointItemsAux pts a b i).get? k =
      (pts.get? k).map (fun p =>
        TimelineItem.point (i + k) p.time (a + countTeam0 (pts.take (k + 1)))
          (b + countTeam1 (pts.take (k + 1)))) := by
  induction pts generalizing a b i k with
  | nil => simp [mkPointItemsAux]
  | cons p rest ih =>
    rcases k with _ | k
    · by_cases ht : p.team = 0 <;>
        simp [mkPointItemsAux, countTeam0, countTeam1, List.countP_cons, ht]
    · rw [mkPointItemsAux]
      have hstep := ih (if p.team = 0 then a + 1 else a)
        (if p.team = 0 then b else b + 1) (i + 1) k
      simp only [List.get?_cons_succ, hstep, List.take_succ_cons]
      rcases hq : rest.get? k with _ | q
      · simp
      · by_cases ht : p.team = 0 <;>
          simp [countTeam0, countTeam1, List.countP_cons, ht] <;>
          constructor <;> omega

/-- Claim C8, counterexample: for the arrival-ordered stream
`[(team 0, t=12), (team 1, t=5)]` with no events, the merge sorts the
second-arriving divider first, so the first point divider of the merged
timeline shows `1 - 1`, while the cumulative counts among the first 1
point in arrival order are `1 - 0`. -/
theorem merged_divider_scores_counterexample :
    timelineItems [] [ScorePoint.mk 0 12, ScorePoint.mk 1 5] 30 =
      [TimelineItem.point 1 5 1 1, TimelineItem.point 0 12 1 0] ∧
    countTeam0 ([ScorePoint.mk 0 12, ScorePoint.mk 1 5].take 1) = 1 ∧
    countTeam1 ([ScorePoint.mk 0 12, ScorePoint.mk 1 5].take 1) = 0 := by
  refine ⟨?_, by decide, by decide⟩
  decide

/-- Claim C8 (amended): provided the times of the ScorePoint stream are
nondecreasing in arrival order, the subsequence of point dividers of the
merged timeline is exactly the arrival-order divider list, whatever the
interleaved events and their timestamps are; and the k-th divider of that
list carries the cumulative team-0 and team-1 counts among the first k+1
points in arrival order. -/
theorem merged_divider_scores (rawEvents : List VolleyballEvent)
    (points : List ScorePoint) (fps : ℚ)
    (hmono : points.Pairwise (fun p q => p.time ≤ q.time)) :
    (timelineItems rawEvents points fps).filter TimelineItem.isPoint =
      mkPointItems points ∧
    ∀ k, (mkPointItems points).get? k =
      (points.get? k).map (fun p =>
        TimelineItem.point k p.time (countTeam0 (points.take (k + 1)))
          (countTeam1 (points.take (k + 1)))) := by
  constructor
  · have hpt : (mkPointItems points).Pairwise byTimestamp := by
      have h1 : (points.map ScorePoint.time).Pairwise (fun a b : ℚ => a ≤ b) :=
        List.pairwise_map.mpr hmono
      rw [← mkPointItemsAux_map_timestamp points 0 0 0] at h1
      have h2 := List.pairwise_map.mp h1
      exact h2
    have hsub : List.Sublist (mkPointItems points)
        (eventItemsOf rawEvents fps ++ mkPointItems points) :=
      List.sublist_append_right _ _
    have hsorted : List.Sublist (mkPointItems points)
        (timelineItems rawEvents points fps) := by
      unfold timelineItems
      exact List.sublist_insertionSort hpt hsub
    have hallp : ∀ x ∈ mkPointItems points, TimelineItem.isPoint x = true :=
      mkPointItemsAux_isPoint points 0 0 0
    have hfilt : (mkPointItems points).filter TimelineItem.isPoint =
        mkPointItems points := List.filter_eq_self.mpr hallp
    have hsubf : List.Sublist (mkPointItems points)
        ((timelineItems rawEvents points fps).filter TimelineItem.isPoint) := by
      rw [← hfilt]
      exact hsorted.filter TimelineItem.isPoint
    have hev : (eventItemsOf rawEvents fps).filter TimelineItem.isPoint = [] := by
      unfold eventItemsOf
      rw [List.filter_map]
      have : (TimelineItem.isPoint ∘ fun ie : ℕ × VolleyballEvent =>
          TimelineItem.event (mkEventCard ie.1 ie.2 fps)) = fun _ => false := by
        funext ie
        rfl
      rw [this]
      simp
    have hperm : ((timelineItems rawEvents points fps).filter
          TimelineItem.isPoint).Perm (mkPointItems points) := by
      have h2 := (List.perm_insertionSort byTimestamp
        (eventItemsOf rawEvents fps ++ mkPointItems points)).filter
        TimelineItem.isPoint
      rw [List.filter_append, hev, List.nil_append, hfilt] at h2
      exact h2
    exact (hsubf.eq_of_length hperm.length_eq.symm).symm
  · intro k
    have h := mkPointItemsAux_get? points 0 0 0 k
    simpa [mkPointItems] using h

/-- Witness for C8 at the scenario of the spec: the stream
`[(team 0, t=5), (team 1, t=12)]` (nondecreasing times) yields running
scores `1 - 0` then `1 - 1` among the point dividers of the merged
timeline, with an interleaved event at t = 2. -/
theorem merged_divider_scores_witness :
    (timelineItems [VolleyballEvent.mk "spike" 60 90 none none none none none]
        [ScorePoint.mk 0 5, ScorePoint.mk 1 12] 30).filter TimelineItem.isPoint =
      [TimelineItem.point 0 5 1 0, TimelineItem.point 1 12 1 1] := by
  have h := (merged_divider_scores
    [VolleyballEvent.mk "spike" 60 90 none none none none none]
    [ScorePoint.mk 0 5, ScorePoint.mk 1 12] 30 (by decide)).1
  rw [h]
  decide

end Tobio
